import Mathlib

/-!
# TimerManager (timerfd + epoll timer service)

A shallow embedding of `TimerManager.cpp` / `TimerManager.hpp`.

* The kernel objects the manager drives through system calls (descriptor table,
  the interest list of the manager's epoll instance, the setting of every
  timerfd) are an explicit `Kernel` record; each system call is a function on it.
* `std::unordered_map<int, Timer> timers_` is an association list; `find`,
  `emplace` and `erase` are the three map operations the source uses.
* `std::function<void()>` callbacks are programs over the manager's public
  interface (`add_oneshot`, `add_interval`, `cancel`, `stop`), which is all a
  callback can do to the manager.  The same program also stands for calls made
  by other threads while the loop has released the lock around a callback.
* `std::mutex mutex_` is a flag.  Acquiring it while it is held never returns
  (`Status.deadlock`).
* Each method is a function from the state before the call to the state after
  it.  Two places where another thread can run in the middle of a method are
  kept as separate functions, so that overlapping calls can be written down:
  `add_timer` is `create_timerfd` (line 61, before the lock is taken) followed
  by `add_timer_locked` (lines 63-70), and `dispatch` is the callback invocation
  followed by `dispatch_finish` (lines 108-112).
* What a read through a dangling iterator yields is not determined by the
  program; `World.dangling_reads` supplies it.
* Every method of the class returns `void`, so a call hands back to its caller
  nothing but the way it ended (`Status`).
* `uint64_t` arguments are natural numbers; `create_timerfd` only divides and
  takes remainders by 1000 and multiplies a value below 1000 by 1000000, so no
  operation on them wraps.
* `epoll_wait` blocks on real time; `run` therefore takes the successive
  results of `epoll_wait` as an argument.
-/

namespace TimerManager

/-! ## Kernel objects and system calls -/

/-- Error numbers reported by the system calls used in `TimerManager.cpp`. -/
inductive Errno
  | EINTR | EBADF | EFAULT | EINVAL | EEXIST | ENOENT | EMFILE | ENOSPC
  deriving DecidableEq

/-- The C `struct timespec`. -/
structure timespec where
  tv_sec : Int
  tv_nsec : Int
  deriving DecidableEq

/-- The C `struct itimerspec`. -/
structure itimerspec where
  it_interval : timespec
  it_value : timespec
  deriving DecidableEq

/-- Kernel state seen by one manager: the open descriptors of the process, the
descriptor of the manager's epoll instance while that instance exists, its
interest list, the current setting of every timerfd, the two resource limits
that make `timerfd_create` and `epoll_ctl(ADD)` fail, and the platform constant
`std::numeric_limits<time_t>::max()` (`time_t` comes from the system headers). -/
structure Kernel where
  open_fds : List Int
  epfd : Option Int
  interest : List Int
  timerfds : List (Int × itimerspec)
  nofile : Nat
  max_watches : Nat
  time_t_max : Nat
  deriving DecidableEq

/-- The lowest descriptor number below the `nofile` limit that is not open. -/
def lowest_free (k : Kernel) : Option Int :=
  ((List.range k.nofile).find? (fun n => !(k.open_fds.contains (n : Int)))).map
    (fun n => (n : Int))

/-- System call `timerfd_create(CLOCK_MONOTONIC, TFD_NONBLOCK)`: a new, disarmed
timer on the lowest free descriptor, or `EMFILE`. -/
def timerfd_create (k : Kernel) : Except Errno (Int × Kernel) :=
  match lowest_free k with
  | none => .error .EMFILE
  | some fd =>
    .ok (fd, { k with open_fds := fd :: k.open_fds,
                      timerfds := (fd, ⟨⟨0, 0⟩, ⟨0, 0⟩⟩) :: k.timerfds })

/-- Whether a `timespec` is acceptable to `timerfd_settime`. -/
def timespec.valid (t : timespec) : Bool :=
  decide (0 ≤ t.tv_sec) && decide (0 ≤ t.tv_nsec) && decide (t.tv_nsec < 1000000000)

/-- System call `timerfd_settime(fd, 0, &its, nullptr)`: replaces the setting of
the timerfd `fd`. -/
def timerfd_settime (k : Kernel) (fd : Int) (its : itimerspec) : Except Errno Kernel :=
  if !(k.open_fds.contains fd) then .error .EBADF
  else if !((k.timerfds.map Prod.fst).contains fd) then .error .EINVAL
  else if !(its.it_value.valid && its.it_interval.valid) then .error .EINVAL
  else .ok { k with timerfds := (fd, its) :: k.timerfds.filter (fun p => p.1 != fd) }

/-- The setting of timerfd `fd`, as `timerfd_gettime` would report it at the
moment it was set. -/
def timer_setting (k : Kernel) (fd : Int) : Option itimerspec :=
  (k.timerfds.find? (fun p => p.1 == fd)).map Prod.snd

/-- A timerfd is armed iff its `it_value` is not all zero: both fields zero
disarm the timer, and a disarmed timer never expires. -/
def armed (k : Kernel) (fd : Int) : Bool :=
  match timer_setting k fd with
  | some its => its.it_value != ⟨0, 0⟩
  | none => false

/-- System call `close(fd)`; its result is ignored everywhere in the source, so
only the effect is kept.  Closing a descriptor drops it from the epoll interest
list; closing the epoll descriptor destroys the epoll instance. -/
def close (k : Kernel) (fd : Int) : Kernel :=
  { k with open_fds := k.open_fds.filter (fun x => x != fd),
           epfd := if k.epfd = some fd then none else k.epfd,
           interest := if k.epfd = some fd then [] else k.interest.filter (fun x => x != fd),
           timerfds := k.timerfds.filter (fun p => p.1 != fd) }

/-- System call `epoll_create1(0)`: a fresh epoll instance with an empty
interest list. -/
def epoll_create1 (k : Kernel) : Except Errno (Int × Kernel) :=
  match lowest_free k with
  | none => .error .EMFILE
  | some fd => .ok (fd, { k with open_fds := fd :: k.open_fds, epfd := some fd, interest := [] })

/-- The two `epoll_ctl` operations used by the source. -/
inductive EpollOp
  | EPOLL_CTL_ADD | EPOLL_CTL_DEL
  deriving DecidableEq

/-- System call `epoll_ctl(epfd, op, fd, ...)` on the manager's epoll instance. -/
def epoll_ctl (k : Kernel) (epfd : Int) (op : EpollOp) (fd : Int) : Except Errno Kernel :=
  if !(k.open_fds.contains epfd) || !(k.open_fds.contains fd) then .error .EBADF
  else if k.epfd != some epfd || fd == epfd then .error .EINVAL
  else match op with
    | .EPOLL_CTL_ADD =>
      if k.interest.contains fd then .error .EEXIST
      else if k.max_watches ≤ k.interest.length then .error .ENOSPC
      else .ok { k with interest := fd :: k.interest }
    | .EPOLL_CTL_DEL =>
      if k.interest.contains fd then
        .ok { k with interest := k.interest.filter (fun x => x != fd) }
      else .error .ENOENT

/-! ## Exceptions, callbacks, the manager -/

/-- The `what` argument of the exceptions thrown in `TimerManager.cpp`. -/
inductive What
  | time_value_too_large      -- "Time value too large"
  | interval_ms_must_be_gt_0  -- "interval_ms must be > 0"
  | timerfd_create
  | timerfd_settime
  | epoll_create1
  | epoll_ctl
  | epoll_wait
  deriving DecidableEq

/-- The exceptions thrown in `TimerManager.cpp`. -/
inductive Exn
  | invalid_argument (what : What)
  | system_error (code : Errno) (what : What)
  deriving DecidableEq

/-- A `TimerCallback` (`std::function<void()>`) as the sequence of calls it
makes on the manager. -/
inductive TimerCallback
  | done
  | add_oneshot (delay_ms : Nat) (callback : TimerCallback) (next : TimerCallback)
  | add_interval (delay_ms interval_ms : Nat) (callback : TimerCallback) (next : TimerCallback)
  | cancel (timer_id : Int) (next : TimerCallback)
  | stop (next : TimerCallback)
  deriving DecidableEq

/-- The private `struct Timer`. -/
structure Timer where
  tfd : Int
  callback : TimerCallback
  is_interval : Bool
  interval_ms : Nat
  deriving DecidableEq

/-- The data members of `class TimerManager`; `mutex_` is `true` while the
mutex is owned. -/
structure Manager where
  epoll_fd_ : Int
  timers_ : List (Int × Timer)
  running_ : Bool
  mutex_ : Bool
  deriving DecidableEq

/-- One callback invocation by the loop: the ready handle, and whether `mutex_`
was owned at the moment of the call. -/
structure Invocation where
  tfd : Int
  lock_held : Bool
  deriving DecidableEq

/-- The manager, the kernel objects behind it, the record of callback
invocations made so far, and the values that the coming reads of
`it->second.is_interval` through a dangling iterator will yield, in order (what
freed memory holds depends on the allocator, not on the program). -/
structure World where
  tm : Manager
  os : Kernel
  invoked : List Invocation
  dangling_reads : List Bool
  deriving DecidableEq

/-- How a call ends: it returns, throws, never acquires `mutex_`, or stays
blocked in `epoll_wait`. -/
inductive Status
  | returned
  | threw (e : Exn)
  | deadlock
  | waiting
  deriving DecidableEq

/-- The world a call leaves behind and how the call ended. -/
structure Outcome where
  world : World
  status : Status
  deriving DecidableEq

/-! ### `std::unordered_map` operations -/

/-- The call `timers_.find(key)`: the record stored under `key`, if any. -/
def find (m : List (Int × Timer)) (key : Int) : Option Timer :=
  (m.find? (fun p => p.1 == key)).map Prod.snd

/-- The call `timers_.emplace(key, t)`: inserts unless `key` is already present. -/
def emplace (m : List (Int × Timer)) (key : Int) (t : Timer) : List (Int × Timer) :=
  if (find m key).isSome then m else (key, t) :: m

/-- The call `timers_.erase(key)`. -/
def erase (m : List (Int × Timer)) (key : Int) : List (Int × Timer) :=
  m.filter (fun p => p.1 != key)

/-- The keys of the Registry. -/
def keys (m : List (Int × Timer)) : List Int := m.map Prod.fst

/-! ### `std::mutex` -/

/-- Acquire `mutex_`; `none` when it is already owned (the caller blocks). -/
def lock (w : World) : Option World :=
  if w.tm.mutex_ then none else some { w with tm := { w.tm with mutex_ := true } }

/-- Release `mutex_`. -/
def unlock (w : World) : World :=
  { w with tm := { w.tm with mutex_ := false } }

/-! ## `TimerManager.cpp` -/

/-- The constant `MAX_SECONDS` of `TimerManager.cpp`. -/
def MAX_SECONDS (k : Kernel) : Nat := k.time_t_max

/-- The initialiser of `struct itimerspec its` in `create_timerfd`. -/
def make_its (delay_ms interval_ms : Nat) : itimerspec :=
  { it_interval := { tv_sec := ((interval_ms / 1000 : Nat) : Int),
                     tv_nsec := (((interval_ms % 1000) * 1000000 : Nat) : Int) },
    it_value := { tv_sec := ((delay_ms / 1000 : Nat) : Int),
                  tv_nsec := (((delay_ms % 1000) * 1000000 : Nat) : Int) } }

/-- The function `create_timerfd(delay_ms, interval_ms)`. -/
def create_timerfd (k : Kernel) (delay_ms interval_ms : Nat) : Kernel × Except Exn Int :=
  if delay_ms / 1000 > MAX_SECONDS k ∨ interval_ms / 1000 > MAX_SECONDS k then
    (k, .error (.invalid_argument .time_value_too_large))
  else
    match timerfd_create k with
    | .error e => (k, .error (.system_error e .timerfd_create))
    | .ok (tfd, k1) =>
      match timerfd_settime k1 tfd (make_its delay_ms interval_ms) with
      | .error e => (close k1 tfd, .error (.system_error e .timerfd_settime))
      | .ok k2 => (k2, .ok tfd)

/-- The constructor `TimerManager::TimerManager()`, run in a process whose
kernel state is `k` and whose dangling reads will yield `reads`. -/
def new (k : Kernel) (reads : List Bool) : Except Exn World :=
  match epoll_create1 k with
  | .error e => .error (.system_error e .epoll_create1)
  | .ok (fd, k1) =>
    .ok { tm := { epoll_fd_ := fd, timers_ := [], running_ := false, mutex_ := false },
          os := k1, invoked := [], dangling_reads := reads }

/-- Lines 63-70 of `TimerManager::add_timer`: the part under the `lock_guard`,
for the handle `tfd` that `create_timerfd` returned on line 61. -/
def add_timer_locked (w : World) (tfd : Int) (interval_ms : Nat) (callback : TimerCallback) :
    Outcome :=
  match lock w with
  | none => ⟨w, .deadlock⟩
  | some w1 =>
    match epoll_ctl w1.os w1.tm.epoll_fd_ .EPOLL_CTL_ADD tfd with
    | .error e =>
      ⟨unlock { w1 with os := close w1.os tfd }, .threw (.system_error e .epoll_ctl)⟩
    | .ok k2 =>
      ⟨unlock { w1 with
          os := k2,
          tm := { w1.tm with
            timers_ := emplace w1.tm.timers_ tfd
              ⟨tfd, callback, decide (interval_ms > 0), interval_ms⟩ } },
       .returned⟩

/-- The method `TimerManager::add_timer`, when no other call runs between its
line 61 and its line 63. -/
def add_timer (w : World) (delay_ms interval_ms : Nat) (callback : TimerCallback) : Outcome :=
  match create_timerfd w.os delay_ms interval_ms with
  | (k1, .error e) => ⟨{ w with os := k1 }, .threw e⟩
  | (k1, .ok tfd) => add_timer_locked { w with os := k1 } tfd interval_ms callback

/-- The method `TimerManager::add_oneshot`. -/
def add_oneshot (w : World) (delay_ms : Nat) (callback : TimerCallback) : Outcome :=
  add_timer w delay_ms 0 callback

/-- The method `TimerManager::add_interval`. -/
def add_interval (w : World) (delay_ms interval_ms : Nat) (callback : TimerCallback) : Outcome :=
  if interval_ms = 0 then ⟨w, .threw (.invalid_argument .interval_ms_must_be_gt_0)⟩
  else add_timer w delay_ms interval_ms callback

/-- The method `TimerManager::remove_timer`; the results of `epoll_ctl` and
`close` are ignored, as in the source. -/
def remove_timer (w : World) (tfd : Int) : World :=
  let k1 := match epoll_ctl w.os w.tm.epoll_fd_ .EPOLL_CTL_DEL tfd with
    | .ok k => k
    | .error _ => w.os
  { w with os := close k1 tfd, tm := { w.tm with timers_ := erase w.tm.timers_ tfd } }

/-- The method `TimerManager::cancel`. -/
def cancel (w : World) (timer_id : Int) : Outcome :=
  match lock w with
  | none => ⟨w, .deadlock⟩
  | some w1 =>
    match find w1.tm.timers_ timer_id with
    | some _ => ⟨unlock (remove_timer w1 timer_id), .returned⟩
    | none => ⟨unlock w1, .returned⟩

/-- The method `TimerManager::stop`. -/
def stop (w : World) : Outcome :=
  match lock w with
  | none => ⟨w, .deadlock⟩
  | some w1 => ⟨unlock { w1 with tm := { w1.tm with running_ := false } }, .returned⟩

/-- Running a callback: its calls on the manager, in order; an exception leaves
the callback at once. -/
def TimerCallback.call : TimerCallback → World → Outcome
  | .done, w => ⟨w, .returned⟩
  | .add_oneshot d cb next, w =>
    match TimerManager.add_oneshot w d cb with
    | ⟨w1, .returned⟩ => next.call w1
    | r => r
  | .add_interval d i cb next, w =>
    match TimerManager.add_interval w d i cb with
    | ⟨w1, .returned⟩ => next.call w1
    | r => r
  | .cancel id next, w =>
    match TimerManager.cancel w id with
    | ⟨w1, .returned⟩ => next.call w1
    | r => r
  | .stop next, w =>
    match TimerManager.stop w with
    | ⟨w1, .returned⟩ => next.call w1
    | r => r

/-- The point `lock.unlock(); callback();` of `run`: the loop releases
`mutex_`, and the invocation is recorded together with the state of `mutex_` at
that moment. -/
def enter_callback (w : World) (tfd : Int) : World :=
  let w1 := unlock w
  { w1 with invoked := w1.invoked ++ [⟨tfd, w1.tm.mutex_⟩] }

/-- Line 110, the read `it->second.is_interval` through the iterator `it`
obtained on line 104, where `t` is the record `it` pointed at then.  Records
are never modified after `emplace`, and a record emplaced while the callback
ran differs from `t` (its callback is a proper part of the one that ran), so
the entry is still the one `it` points at exactly when the record found under
`tfd` is still `t`; the read then yields `t.is_interval`.  Otherwise the entry
was erased and `it` dangles: the read yields the next value of
`dangling_reads`, or, when there is none, what the erased record held. -/
def read_is_interval (w : World) (tfd : Int) (t : Timer) : Bool × World :=
  if find w.tm.timers_ tfd = some t then (t.is_interval, w)
  else
    match w.dangling_reads with
    | [] => (t.is_interval, w)
    | b :: rest => (b, { w with dangling_reads := rest })

/-- Lines 108-112 of `TimerManager::run`: after the callback has returned the
loop takes `mutex_` again and, with no second `find`, removes the timer when
the read of `is_interval` yields `false`. -/
def dispatch_finish (w : World) (tfd : Int) (t : Timer) : Outcome :=
  match lock w with
  | none => ⟨w, .deadlock⟩
  | some w1 =>
    match read_is_interval w1 tfd t with
    | (is_interval, w2) =>
      if !is_interval then ⟨remove_timer w2 tfd, .returned⟩
      else ⟨w2, .returned⟩

/-- The body of the `for` loop of `TimerManager::run` for one ready handle
`tfd` (lines 100-113), entered with `mutex_` owned by the loop, when no other
thread acts between the return of the callback and line 108.  `read` only
resets the expiration count of the timerfd, which the kernel record does not
keep.  An exception thrown by the callback leaves the loop at once. -/
def dispatch (w : World) (tfd : Int) : Outcome :=
  match find w.tm.timers_ tfd with
  | none => ⟨w, .returned⟩
  | some t =>
    let callback := t.callback
    match callback.call (enter_callback w tfd) with
    | ⟨w3, .returned⟩ => dispatch_finish w3 tfd t
    | r => r

/-- The loop `for (int i = 0; i < n && running_; ++i)` over the ready handles. -/
def for_events : World → List Int → Outcome
  | w, [] => ⟨w, .returned⟩
  | w, tfd :: rest =>
    if !w.tm.running_ then ⟨w, .returned⟩
    else
      match dispatch w tfd with
      | ⟨w1, .returned⟩ => for_events w1 rest
      | r => r

/-- One result of `epoll_wait(epoll_fd_, events, MAX_EVENTS, -1)`: the ready
handles in the order reported, or `-1` with an error number. -/
inductive WaitResult
  | ready (fds : List Int)
  | failed (e : Errno)
  deriving DecidableEq

/-- The constant `MAX_EVENTS` of `run`. -/
def MAX_EVENTS : Nat := 10

/-- The loop `while (running_)` of `TimerManager::run`, fed with the successive
results of `epoll_wait`.  When they are used up the call stays blocked in
`epoll_wait`. -/
def run_loop : World → List WaitResult → Outcome
  | w, [] => if !w.tm.running_ then ⟨w, .returned⟩ else ⟨w, .waiting⟩
  | w, r :: rest =>
    if !w.tm.running_ then ⟨w, .returned⟩
    else
      match r with
      | .failed e =>
        if e = .EINTR then run_loop w rest
        else ⟨w, .threw (.system_error e .epoll_wait)⟩
      | .ready fds =>
        match lock w with
        | none => ⟨w, .deadlock⟩
        | some w1 =>
          match for_events w1 (fds.take MAX_EVENTS) with
          | ⟨w2, .returned⟩ => run_loop (unlock w2) rest
          | r => r

/-- The method `TimerManager::run`. -/
def run (w : World) (waits : List WaitResult) : Outcome :=
  run_loop { w with tm := { w.tm with running_ := true } } waits

/-! ## Executions without overlap -/

/-- One step of an execution in which no two calls overlap: a public call run
to its end, the loop acquiring or releasing `mutex_` around a batch, one whole
dispatch step, or a whole call of `run`. -/
inductive Step
  | add_oneshot (delay_ms : Nat) (callback : TimerCallback)
  | add_interval (delay_ms interval_ms : Nat) (callback : TimerCallback)
  | cancel (timer_id : Int)
  | stop
  | loop_lock
  | dispatch (tfd : Int)
  | loop_unlock
  | run (waits : List WaitResult)
  deriving DecidableEq

/-- The world after one step, however the step ended. -/
def Step.apply : Step → World → World
  | .add_oneshot d cb, w => (TimerManager.add_oneshot w d cb).world
  | .add_interval d i cb, w => (TimerManager.add_interval w d i cb).world
  | .cancel id, w => (TimerManager.cancel w id).world
  | .stop, w => (TimerManager.stop w).world
  | .loop_lock, w => (lock w).getD w
  | .dispatch tfd, w => (TimerManager.dispatch w tfd).world
  | .loop_unlock, w => unlock w
  | .run waits, w => (TimerManager.run w waits).world

/-- The world after a sequence of steps that do not overlap. -/
def exec (w : World) (steps : List Step) : World :=
  steps.foldl (fun w s => s.apply w) w

/-! ## Predicates used in the statements -/

/-- The Registry and the epoll interest list hold the same handles, and every
Registry record carries its own key as `tfd`. -/
def Lockstep (w : World) : Prop :=
  (∀ x ∈ keys w.tm.timers_, x ∈ w.os.interest) ∧
  (∀ x ∈ w.os.interest, x ∈ keys w.tm.timers_) ∧
  (∀ p ∈ w.tm.timers_, p.2.tfd = p.1)

instance (w : World) : Decidable (Lockstep w) := by
  unfold Lockstep
  infer_instance

/-- The inductive invariant behind `Lockstep`: in addition every registered
handle is open, and `epoll_fd_` is the open descriptor of the epoll instance,
which is not in its own interest list. -/
structure SInv (w : World) : Prop where
  lockstep : ∀ x, x ∈ keys w.tm.timers_ ↔ x ∈ w.os.interest
  tfd_key : ∀ p ∈ w.tm.timers_, p.2.tfd = p.1
  interest_open : ∀ x ∈ w.os.interest, x ∈ w.os.open_fds
  epfd_eq : w.os.epfd = some w.tm.epoll_fd_
  epfd_open : w.tm.epoll_fd_ ∈ w.os.open_fds
  epfd_not_interest : w.tm.epoll_fd_ ∉ w.os.interest

/-- A step from `w` to `w2` keeps the invariant and the epoll descriptor. -/
structure Keeps (w w2 : World) : Prop where
  inv : SInv w2
  epoll_fd_eq : w2.tm.epoll_fd_ = w.tm.epoll_fd_

/-- What every public call guarantees when it is made with the lock free: it
does not block on the lock, it does not end inside `epoll_wait`, it leaves the
lock free, and it invokes no callback. -/
structure CallOk (w : World) (r : Outcome) : Prop where
  no_deadlock : r.status ≠ .deadlock
  no_waiting : r.status ≠ .waiting
  mutex_free : r.world.tm.mutex_ = false
  invoked_eq : r.world.invoked = w.invoked

/-- The invocation record `new` extends `old` by calls that were all made with
`mutex_` not owned. -/
def Unheld (old new : List Invocation) : Prop :=
  ∃ calls, new = old ++ calls ∧ ∀ c ∈ calls, c.lock_held = false

/-- What one dispatch step, a batch, or the loop guarantees about the lock. -/
structure LoopOk (w : World) (r : Outcome) : Prop where
  no_deadlock : r.status ≠ .deadlock
  unheld : Unheld w.invoked r.world.invoked
  threw_free : ∀ e, r.status = .threw e → r.world.tm.mutex_ = false

/-- The outcome `r` of a call made on `w` registered one new timer with delay
`d`, interval `i` and callback `cb`.  The handle `tfd` is the descriptor the
kernel hands out (the lowest free one), it was neither open nor a Registry key
before; after the call it is open, set to `make_its d i` and at the head of the
interest list, the Registry has gained exactly the record `add_timer` builds
under the key `tfd`, and nothing else in the manager has changed.  `cancel` of
`tfd` then returns and leaves the Registry as it was before the call, with
`tfd` out of the interest list and closed. -/
def Registered (w : World) (r : Outcome) (d i : Nat) (cb : TimerCallback) : Prop :=
  ∃ tfd, lowest_free w.os = some tfd ∧
    tfd ∉ w.os.open_fds ∧
    tfd ∉ keys w.tm.timers_ ∧
    r.world.os.open_fds = tfd :: w.os.open_fds ∧
    timer_setting r.world.os tfd = some (make_its d i) ∧
    r.world.os.interest = tfd :: w.os.interest ∧
    r.world.tm = { w.tm with
      timers_ := (tfd, ⟨tfd, cb, decide (i > 0), i⟩) :: w.tm.timers_ } ∧
    (cancel r.world tfd).status = .returned ∧
    (cancel r.world tfd).world.tm.timers_ = w.tm.timers_ ∧
    tfd ∉ (cancel r.world tfd).world.os.interest ∧
    tfd ∉ (cancel r.world tfd).world.os.open_fds

/-- The kernel after a successful `create_timerfd` that returned `fd`. -/
def with_timerfd (k : Kernel) (fd : Int) (its : itimerspec) : Kernel :=
  { k with open_fds := fd :: k.open_fds,
           timerfds := (fd, its) :: k.timerfds.filter (fun p => p.1 != fd) }

/-! ## Sample states -/

/-- A process with only the three standard descriptors open. -/
def stdio : Kernel :=
  { open_fds := [0, 1, 2], epfd := none, interest := [], timerfds := [],
    nofile := 16, max_watches := 8, time_t_max := 2 ^ 63 - 1 }

/-- The manager constructed in the process `stdio`: its epoll instance is
descriptor 3. -/
def fresh : World :=
  { tm := { epoll_fd_ := 3, timers_ := [], running_ := false, mutex_ := false },
    os := { stdio with open_fds := [3, 0, 1, 2], epfd := some 3 },
    invoked := [], dangling_reads := [] }

/-- The manager `fresh` after `add_oneshot(1000, callback)`; the new timer is
handle 4. -/
def one_timer (callback : TimerCallback) : World :=
  (add_oneshot fresh 1000 callback).world

/-- The state `w` once `run` has set the running flag. -/
def started (w : World) : World :=
  { w with tm := { w.tm with running_ := true } }

/-- The state `w` at the point where the loop is running and owns `mutex_`. -/
def in_batch (w : World) : World :=
  { w with tm := { w.tm with running_ := true, mutex_ := true } }

/-- A callback that cancels timer 4. -/
def cancels_itself : TimerCallback := .cancel 4 .done

/-- The manager with the single one-shot timer 4 whose callback is
`cancels_itself`, at the point where the loop, owning `mutex_`, finds handle 4
ready (line 100). -/
def overlap_start : World := in_batch (one_timer cancels_itself)

/-- The loop has found timer 4, released the lock and the callback has returned
(lines 104-107). -/
def overlap_called : World := (cancels_itself.call (enter_callback overlap_start 4)).world

/-- A second thread, inside `add_oneshot(3000, {})`, has run line 61 and holds
the handle of its new timerfd; it has not taken the lock yet. -/
def overlap_pending : World :=
  { overlap_called with os := (create_timerfd overlap_called.os 3000 0).1 }

/-- The loop has run lines 108-112 and released the lock at the end of the
batch. -/
def overlap_finished : World :=
  unlock (dispatch_finish overlap_pending 4 ⟨4, cancels_itself, false, 0⟩).world

/-- A third thread has called `add_oneshot(1000, {})`. -/
def overlap_added : World := (add_oneshot overlap_finished 1000 .done).world

/-- The second thread has run lines 63-70 with the handle 4 it got on line 61. -/
def overlap_end : World := (add_timer_locked overlap_added 4 0 .done).world

/-- A callback that cancels timer 4 and then registers a one-shot timer. -/
def cancel_then_add : TimerCallback :=
  .cancel 4 (.add_oneshot 5 .done .done)

/-- The manager with the single one-shot timer 4 whose callback is
`cancel_then_add`, at the point where the loop, owning `mutex_`, finds handle 4
ready. -/
def self_cancelling : World := in_batch (one_timer cancel_then_add)

/-! ## Lemmas -/

theorem lock_free {w : World} (h : w.tm.mutex_ = false) :
    lock w = some { w with tm := { w.tm with mutex_ := true } } := by
  simp [lock, h]

theorem lock_held {w : World} (h : w.tm.mutex_ = true) : lock w = none := by
  simp [lock, h]

theorem unlock_lock_eq {w : World} (h : w.tm.mutex_ = false) :
    unlock { w with tm := { w.tm with mutex_ := true } } = w := by
  cases w with
  | mk tm os inv =>
    cases tm
    simp_all [unlock]

theorem find_cons (p : Int × Timer) (m : List (Int × Timer)) (k : Int) :
    find (p :: m) k = if p.1 = k then some p.2 else find m k := by
  by_cases h : p.1 = k <;> simp [find, List.find?_cons, h]

theorem erase_cons (p : Int × Timer) (m : List (Int × Timer)) (k : Int) :
    erase (p :: m) k = if p.1 = k then erase m k else p :: erase m k := by
  by_cases h : p.1 = k <;> simp [erase, List.filter_cons, h]

theorem keys_cons (p : Int × Timer) (m : List (Int × Timer)) :
    keys (p :: m) = p.1 :: keys m := rfl

theorem find_erase_self (m : List (Int × Timer)) (key : Int) : find (erase m key) key = none := by
  induction m with
  | nil => rfl
  | cons p m ih =>
    rw [erase_cons]
    split
    · exact ih
    · rw [find_cons, if_neg (by assumption)]; exact ih

theorem find_erase_ne (m : List (Int × Timer)) {key k : Int} (h : k ≠ key) :
    find (erase m key) k = find m k := by
  induction m with
  | nil => rfl
  | cons p m ih =>
    rw [erase_cons, find_cons]
    by_cases h1 : p.1 = key
    · have h2 : ¬ p.1 = k := by rw [h1]; exact fun e => h e.symm
      rw [if_pos h1, if_neg h2]; exact ih
    · rw [if_neg h1, find_cons, ih]

theorem find_isSome_iff (m : List (Int × Timer)) (key : Int) :
    (find m key).isSome = true ↔ key ∈ keys m := by
  induction m with
  | nil => simp [find, keys]
  | cons p m ih =>
    rw [find_cons, keys_cons, List.mem_cons]
    by_cases h : p.1 = key
    · simp [h]
    · have h' : ¬ key = p.1 := fun e => h e.symm
      simp [h, h', ih]

theorem find_eq_none_iff (m : List (Int × Timer)) (key : Int) :
    find m key = none ↔ key ∉ keys m := by
  rw [← find_isSome_iff]
  cases find m key <;> simp

theorem keys_erase (m : List (Int × Timer)) (key x : Int) :
    x ∈ keys (erase m key) ↔ x ∈ keys m ∧ x ≠ key := by
  simp only [keys, erase, List.mem_map, List.mem_filter]
  constructor
  · rintro ⟨p, ⟨hp, hne⟩, rfl⟩
    exact ⟨⟨p, hp, rfl⟩, by simpa using hne⟩
  · rintro ⟨⟨p, hp, rfl⟩, hne⟩
    exact ⟨p, ⟨hp, by simpa using hne⟩, rfl⟩

theorem erase_of_not_mem (m : List (Int × Timer)) (key : Int) (h : key ∉ keys m) :
    erase m key = m := by
  induction m with
  | nil => rfl
  | cons p m ih =>
    rw [keys_cons, List.mem_cons, not_or] at h
    rw [erase_cons, if_neg (fun e => h.1 e.symm), ih h.2]

theorem close_open_fds (k : Kernel) (fd x : Int) :
    x ∈ (close k fd).open_fds ↔ x ∈ k.open_fds ∧ x ≠ fd := by
  simp [close]

theorem close_interest_sub (k : Kernel) (fd x : Int) (h : x ∈ (close k fd).interest) :
    x ∈ k.interest ∧ x ≠ fd := by
  unfold close at h
  dsimp only at h
  split at h
  · simp at h
  · simpa using h

theorem not_mem_close_interest (k : Kernel) (fd : Int) : fd ∉ (close k fd).interest :=
  fun h => (close_interest_sub k fd fd h).2 rfl

theorem not_mem_close_open (k : Kernel) (fd : Int) : fd ∉ (close k fd).open_fds :=
  fun h => ((close_open_fds k fd fd).1 h).2 rfl

theorem remove_timer_tm (w : World) (tfd : Int) :
    (remove_timer w tfd).tm = { w.tm with timers_ := erase w.tm.timers_ tfd } := rfl

theorem remove_timer_not_interest (w : World) (tfd : Int) :
    tfd ∉ (remove_timer w tfd).os.interest := not_mem_close_interest _ _

theorem remove_timer_not_open (w : World) (tfd : Int) :
    tfd ∉ (remove_timer w tfd).os.open_fds := not_mem_close_open _ _

theorem cancel_of_present {w : World} {id : Int} (hfree : w.tm.mutex_ = false)
    (hin : id ∈ keys w.tm.timers_) :
    cancel w id =
      ⟨unlock (remove_timer { w with tm := { w.tm with mutex_ := true } } id), .returned⟩ := by
  have h := (find_isSome_iff w.tm.timers_ id).2 hin
  unfold cancel
  rw [lock_free hfree]
  dsimp only
  cases hf : find w.tm.timers_ id with
  | none => rw [hf] at h; simp at h
  | some t => rfl

theorem cancel_of_absent {w : World} {id : Int} (hfree : w.tm.mutex_ = false)
    (hnot : id ∉ keys w.tm.timers_) : cancel w id = ⟨w, .returned⟩ := by
  have h := (find_eq_none_iff w.tm.timers_ id).2 hnot
  unfold cancel
  rw [lock_free hfree]
  dsimp only
  rw [h]
  dsimp only
  rw [unlock_lock_eq hfree]

theorem make_its_valid (d i : Nat) :
    ((make_its d i).it_value.valid && (make_its d i).it_interval.valid) = true := by
  have h1 : d % 1000 < 1000 := Nat.mod_lt _ (by decide)
  have h2 : i % 1000 < 1000 := Nat.mod_lt _ (by decide)
  simp only [make_its, timespec.valid, Bool.and_eq_true, decide_eq_true_eq]
  refine ⟨⟨⟨?_, ?_⟩, ?_⟩, ⟨⟨?_, ?_⟩, ?_⟩⟩ <;> omega

theorem create_timerfd_eq (k : Kernel) (d i : Nat) :
    create_timerfd k d i =
      if d / 1000 > MAX_SECONDS k ∨ i / 1000 > MAX_SECONDS k then
        (k, .error (.invalid_argument .time_value_too_large))
      else match lowest_free k with
        | none => (k, .error (.system_error .EMFILE .timerfd_create))
        | some fd => (with_timerfd k fd (make_its d i), .ok fd) := by
  unfold create_timerfd
  split
  · rfl
  · unfold timerfd_create
    cases hl : lowest_free k with
    | none => rfl
    | some fd =>
      have hv := make_its_valid d i
      simp [timerfd_settime, hv, with_timerfd]

theorem add_timer_eq (w : World) (d i : Nat) (cb : TimerCallback) :
    add_timer w d i cb =
      if d / 1000 > MAX_SECONDS w.os ∨ i / 1000 > MAX_SECONDS w.os then
        ⟨w, .threw (.invalid_argument .time_value_too_large)⟩
      else match lowest_free w.os with
        | none => ⟨w, .threw (.system_error .EMFILE .timerfd_create)⟩
        | some tfd =>
          if w.tm.mutex_ = true then
            ⟨{ w with os := with_timerfd w.os tfd (make_its d i) }, .deadlock⟩
          else
            match epoll_ctl (with_timerfd w.os tfd (make_its d i)) w.tm.epoll_fd_
                .EPOLL_CTL_ADD tfd with
            | .error e =>
              ⟨{ w with os := close (with_timerfd w.os tfd (make_its d i)) tfd },
               .threw (.system_error e .epoll_ctl)⟩
            | .ok k2 =>
              ⟨{ w with os := k2,
                        tm := { w.tm with
                          timers_ := emplace w.tm.timers_ tfd ⟨tfd, cb, decide (i > 0), i⟩ } },
               .returned⟩ := by
  unfold add_timer add_timer_locked
  rw [create_timerfd_eq]
  by_cases hc : d / 1000 > MAX_SECONDS w.os ∨ i / 1000 > MAX_SECONDS w.os
  · rw [if_pos hc, if_pos hc]
  · rw [if_neg hc, if_neg hc]
    cases hl : lowest_free w.os with
    | none => rfl
    | some tfd =>
      dsimp only
      by_cases hm : w.tm.mutex_ = true
      · rw [if_pos hm]
        simp [lock, hm]
      · rw [if_neg hm]
        have hm' : w.tm.mutex_ = false := by simpa using hm
        simp only [lock, hm']
        cases w with
        | mk tm os inv =>
          cases tm
          simp only at hm'
          subst hm'
          cases he : epoll_ctl (with_timerfd os tfd (make_its d i)) _ .EPOLL_CTL_ADD tfd <;>
            simp [unlock, he]

theorem add_timer_status_ne (w : World) (d i : Nat) (cb : TimerCallback) :
    (add_timer w d i cb).status ≠ .threw (.invalid_argument .interval_ms_must_be_gt_0) := by
  rw [add_timer_eq]
  split
  · simp
  · split
    · simp
    · split
      · simp
      · split <;> simp

theorem add_timer_ok (w : World) (d i : Nat) (cb : TimerCallback) (hfree : w.tm.mutex_ = false) :
    CallOk w (add_timer w d i cb) := by
  rw [add_timer_eq]
  have hm : ¬ w.tm.mutex_ = true := by simp [hfree]
  split
  · exact ⟨by simp, by simp, hfree, rfl⟩
  · split
    · exact ⟨by simp, by simp, hfree, rfl⟩
    · split
      · exact ⟨by simp, by simp, hfree, rfl⟩
      · exact ⟨by simp, by simp, hfree, rfl⟩

theorem add_oneshot_ok (w : World) (d : Nat) (cb : TimerCallback) (hfree : w.tm.mutex_ = false) :
    CallOk w (add_oneshot w d cb) := add_timer_ok w d 0 cb hfree

theorem add_interval_ok (w : World) (d i : Nat) (cb : TimerCallback)
    (hfree : w.tm.mutex_ = false) : CallOk w (add_interval w d i cb) := by
  unfold add_interval
  split
  · exact ⟨by simp, by simp, hfree, rfl⟩
  · exact add_timer_ok w d i cb hfree

theorem cancel_ok (w : World) (id : Int) (hfree : w.tm.mutex_ = false) :
    CallOk w (cancel w id) := by
  unfold cancel
  rw [lock_free hfree]
  dsimp only
  split
  · exact ⟨by simp, by simp, rfl, rfl⟩
  · exact ⟨by simp, by simp, rfl, rfl⟩

theorem stop_ok (w : World) (hfree : w.tm.mutex_ = false) : CallOk w (stop w) := by
  unfold stop
  rw [lock_free hfree]
  exact ⟨by simp, by simp, rfl, rfl⟩

theorem call_ok (cb : TimerCallback) : ∀ (w : World), w.tm.mutex_ = false → CallOk w (cb.call w) := by
  induction cb with
  | done => intro w h; exact ⟨by simp [TimerCallback.call], by simp [TimerCallback.call], h, rfl⟩
  | add_oneshot d cb next _ ihn =>
    intro w h
    have h1 := add_oneshot_ok w d cb h
    unfold TimerCallback.call
    split
    · rename_i w1 heq
      rw [heq] at h1
      have h2 := ihn w1 h1.mutex_free
      exact ⟨h2.no_deadlock, h2.no_waiting, h2.mutex_free, h2.invoked_eq.trans h1.invoked_eq⟩
    · exact h1
  | add_interval d i cb next _ ihn =>
    intro w h
    have h1 := add_interval_ok w d i cb h
    unfold TimerCallback.call
    split
    · rename_i w1 heq
      rw [heq] at h1
      have h2 := ihn w1 h1.mutex_free
      exact ⟨h2.no_deadlock, h2.no_waiting, h2.mutex_free, h2.invoked_eq.trans h1.invoked_eq⟩
    · exact h1
  | cancel id next ihn =>
    intro w h
    have h1 := cancel_ok w id h
    unfold TimerCallback.call
    split
    · rename_i w1 heq
      rw [heq] at h1
      have h2 := ihn w1 h1.mutex_free
      exact ⟨h2.no_deadlock, h2.no_waiting, h2.mutex_free, h2.invoked_eq.trans h1.invoked_eq⟩
    · exact h1
  | stop next ihn =>
    intro w h
    have h1 := stop_ok w h
    unfold TimerCallback.call
    split
    · rename_i w1 heq
      rw [heq] at h1
      have h2 := ihn w1 h1.mutex_free
      exact ⟨h2.no_deadlock, h2.no_waiting, h2.mutex_free, h2.invoked_eq.trans h1.invoked_eq⟩
    · exact h1

theorem unheld_refl (l : List Invocation) : Unheld l l := ⟨[], by simp, by simp⟩

theorem unheld_trans {a b c : List Invocation} (h1 : Unheld a b) (h2 : Unheld b c) :
    Unheld a c := by
  obtain ⟨x, rfl, hx⟩ := h1
  obtain ⟨y, rfl, hy⟩ := h2
  refine ⟨x ++ y, by simp, ?_⟩
  intro c hc
  rcases List.mem_append.1 hc with h | h
  · exact hx c h
  · exact hy c h

theorem eq_returned {r : Outcome} (h : r.status = .returned) : r = ⟨r.world, .returned⟩ := by
  cases r
  simp_all

theorem enter_callback_mutex (w : World) (tfd : Int) :
    (enter_callback w tfd).tm.mutex_ = false := rfl

theorem enter_callback_invoked (w : World) (tfd : Int) :
    (enter_callback w tfd).invoked = w.invoked ++ [⟨tfd, false⟩] := rfl

theorem read_is_interval_world (w : World) (tfd : Int) (t : Timer) :
    (read_is_interval w tfd t).2.tm = w.tm ∧
    (read_is_interval w tfd t).2.os = w.os ∧
    (read_is_interval w tfd t).2.invoked = w.invoked := by
  unfold read_is_interval
  split
  · exact ⟨rfl, rfl, rfl⟩
  · split <;> exact ⟨rfl, rfl, rfl⟩

theorem dispatch_finish_eq {w : World} (tfd : Int) (t : Timer) (hfree : w.tm.mutex_ = false) :
    dispatch_finish w tfd t =
      if !(read_is_interval { w with tm := { w.tm with mutex_ := true } } tfd t).1 then
        ⟨remove_timer (read_is_interval { w with tm := { w.tm with mutex_ := true } } tfd t).2 tfd,
         .returned⟩
      else ⟨(read_is_interval { w with tm := { w.tm with mutex_ := true } } tfd t).2, .returned⟩ := by
  unfold dispatch_finish
  rw [lock_free hfree]

theorem dispatch_finish_ok {w : World} (tfd : Int) (t : Timer) (hfree : w.tm.mutex_ = false) :
    (dispatch_finish w tfd t).status = .returned ∧
    (dispatch_finish w tfd t).world.tm.mutex_ = true ∧
    (dispatch_finish w tfd t).world.invoked = w.invoked := by
  have hr := read_is_interval_world { w with tm := { w.tm with mutex_ := true } } tfd t
  rw [dispatch_finish_eq tfd t hfree]
  split
  · refine ⟨rfl, ?_, ?_⟩
    · rw [remove_timer_tm]
      dsimp only
      rw [hr.1]
    · show (read_is_interval _ tfd t).2.invoked = w.invoked
      rw [hr.2.2]
  · refine ⟨rfl, ?_, ?_⟩
    · dsimp only
      rw [hr.1]
    · dsimp only
      rw [hr.2.2]

theorem dispatch_ok (w : World) (tfd : Int) (hheld : w.tm.mutex_ = true) :
    LoopOk w (dispatch w tfd) ∧
    ((dispatch w tfd).status = .returned → (dispatch w tfd).world.tm.mutex_ = true) ∧
    (dispatch w tfd).status ≠ .waiting := by
  unfold dispatch
  cases hf : find w.tm.timers_ tfd with
  | none => exact ⟨⟨by simp, unheld_refl _, by simp⟩, fun _ => hheld, by simp⟩
  | some t =>
    dsimp only
    have hc := call_ok t.callback (enter_callback w tfd) (enter_callback_mutex w tfd)
    have hu : Unheld w.invoked (t.callback.call (enter_callback w tfd)).world.invoked := by
      rw [hc.invoked_eq, enter_callback_invoked]
      exact ⟨[⟨tfd, false⟩], rfl, by simp⟩
    split
    · rename_i w3 heq
      rw [heq] at hc hu
      have hd := dispatch_finish_ok tfd t hc.mutex_free
      refine ⟨⟨by rw [hd.1]; simp, by rw [hd.2.2]; exact hu, ?_⟩, fun _ => hd.2.1, by rw [hd.1]; simp⟩
      intro e he
      rw [hd.1] at he
      cases he
    · rename_i hne
      refine ⟨⟨hc.no_deadlock, hu, fun e _ => hc.mutex_free⟩, ?_, hc.no_waiting⟩
      intro hret
      exfalso
      exact hne _ (eq_returned hret)

theorem for_events_ok (fds : List Int) : ∀ (w : World), w.tm.mutex_ = true →
    LoopOk w (for_events w fds) ∧
    ((for_events w fds).status = .returned → (for_events w fds).world.tm.mutex_ = true) ∧
    (for_events w fds).status ≠ .waiting := by
  induction fds with
  | nil => intro w h; exact ⟨⟨by simp [for_events], unheld_refl _, by simp [for_events]⟩,
      fun _ => h, by simp [for_events]⟩
  | cons tfd rest ih =>
    intro w h
    unfold for_events
    split
    · exact ⟨⟨by simp, unheld_refl _, by simp⟩, fun _ => h, by simp⟩
    · have hd := dispatch_ok w tfd h
      split
      · rename_i w1 heq
        rw [heq] at hd
        have h1 := ih w1 (hd.2.1 rfl)
        exact ⟨⟨h1.1.no_deadlock, unheld_trans hd.1.unheld h1.1.unheld, h1.1.threw_free⟩, h1.2⟩
      · rename_i hne
        refine ⟨hd.1, ?_, hd.2.2⟩
        intro hret
        exfalso
        exact hne _ (eq_returned hret)

theorem run_loop_ok (waits : List WaitResult) : ∀ (w : World), w.tm.mutex_ = false →
    LoopOk w (run_loop w waits) ∧ (run_loop w waits).world.tm.mutex_ = false := by
  induction waits with
  | nil =>
    intro w h
    unfold run_loop
    split
    · exact ⟨⟨by simp, unheld_refl _, by simp [h]⟩, h⟩
    · exact ⟨⟨by simp, unheld_refl _, by simp [h]⟩, h⟩
  | cons r rest ih =>
    intro w h
    unfold run_loop
    split
    · exact ⟨⟨by simp, unheld_refl _, by simp [h]⟩, h⟩
    · split
      · split
        · exact ih w h
        · exact ⟨⟨by simp, unheld_refl _, by simp [h]⟩, h⟩
      · rename_i fds
        rw [lock_free h]
        dsimp only
        have hf := for_events_ok (fds.take MAX_EVENTS)
          { w with tm := { w.tm with mutex_ := true } } rfl
        split
        · rename_i w2 heq
          rw [heq] at hf
          have h2 := ih (unlock w2) rfl
          exact ⟨⟨h2.1.no_deadlock, unheld_trans hf.1.unheld h2.1.unheld, h2.1.threw_free⟩, h2.2⟩
        · rename_i r2 hne
          cases hr : for_events { w with tm := { w.tm with mutex_ := true } }
              (fds.take MAX_EVENTS) with
          | mk w' s =>
            rw [hr] at hf hne
            cases s with
            | returned => exact absurd rfl (hne w')
            | threw e => exact ⟨⟨by simp, hf.1.unheld, hf.1.threw_free⟩, hf.1.threw_free e rfl⟩
            | deadlock => exact absurd rfl hf.1.no_deadlock
            | waiting => exact absurd rfl hf.2.2

theorem lowest_free_not_open {k : Kernel} {fd : Int} (h : lowest_free k = some fd) :
    fd ∉ k.open_fds := by
  unfold lowest_free at h
  rw [Option.map_eq_some'] at h
  obtain ⟨n, hn, rfl⟩ := h
  have hp := List.find?_some hn
  simpa using hp

theorem epoll_ctl_add_ok {k k2 : Kernel} {epfd fd : Int}
    (h : epoll_ctl k epfd .EPOLL_CTL_ADD fd = .ok k2) :
    k2 = { k with interest := fd :: k.interest } := by
  unfold epoll_ctl at h
  split at h
  · cases h
  · split at h
    · cases h
    · dsimp only at h
      split at h
      · cases h
      · split at h
        · cases h
        · injection h with h
          exact h.symm

theorem epoll_ctl_del_ok {k k2 : Kernel} {epfd fd : Int}
    (h : epoll_ctl k epfd .EPOLL_CTL_DEL fd = .ok k2) :
    k2 = { k with interest := k.interest.filter (fun x => x != fd) } := by
  unfold epoll_ctl at h
  split at h
  · cases h
  · split at h
    · cases h
    · dsimp only at h
      split at h
      · injection h with h
        exact h.symm
      · cases h

theorem epoll_ctl_del_cases (k : Kernel) (epfd fd : Int) :
    (match epoll_ctl k epfd .EPOLL_CTL_DEL fd with
      | .ok k1 => k1
      | .error _ => k) = k ∨
    (match epoll_ctl k epfd .EPOLL_CTL_DEL fd with
      | .ok k1 => k1
      | .error _ => k) = { k with interest := k.interest.filter (fun x => x != fd) } := by
  cases h : epoll_ctl k epfd .EPOLL_CTL_DEL fd with
  | error e => exact Or.inl rfl
  | ok k1 => exact Or.inr (epoll_ctl_del_ok h)

theorem close_of_ne_epfd {k : Kernel} {fd : Int} (h : k.epfd ≠ some fd) :
    close k fd = { k with open_fds := k.open_fds.filter (fun x => x != fd),
                          interest := k.interest.filter (fun x => x != fd),
                          timerfds := k.timerfds.filter (fun p => p.1 != fd) } := by
  unfold close
  simp [h]

theorem remove_timer_os {w : World} {tfd : Int} (h : w.os.epfd ≠ some tfd) :
    (remove_timer w tfd).os.epfd = w.os.epfd ∧
    (∀ x, x ∈ (remove_timer w tfd).os.open_fds ↔ x ∈ w.os.open_fds ∧ x ≠ tfd) ∧
    (∀ x, x ∈ (remove_timer w tfd).os.interest ↔ x ∈ w.os.interest ∧ x ≠ tfd) := by
  unfold remove_timer
  dsimp only
  rcases epoll_ctl_del_cases w.os w.tm.epoll_fd_ tfd with h1 | h1
  · rw [h1, close_of_ne_epfd h]
    simp
  · rw [h1, close_of_ne_epfd (by exact h)]
    simp

theorem keeps_refl {w : World} (h : SInv w) : Keeps w w := ⟨h, rfl⟩

theorem keeps_trans {a b c : World} (h1 : Keeps a b) (h2 : Keeps b c) : Keeps a c :=
  ⟨h2.inv, h2.epoll_fd_eq.trans h1.epoll_fd_eq⟩

theorem SInv.congr {w w2 : World} (h : SInv w) (h1 : w2.tm.timers_ = w.tm.timers_)
    (h2 : w2.tm.epoll_fd_ = w.tm.epoll_fd_) (h3 : w2.os = w.os) : SInv w2 := by
  constructor
  · rw [h1, h3]; exact h.lockstep
  · rw [h1]; exact h.tfd_key
  · rw [h3]; exact h.interest_open
  · rw [h2, h3]; exact h.epfd_eq
  · rw [h2, h3]; exact h.epfd_open
  · rw [h2, h3]; exact h.epfd_not_interest

theorem SInv.keeps_congr {w w2 : World} (h : SInv w) (h1 : w2.tm.timers_ = w.tm.timers_)
    (h2 : w2.tm.epoll_fd_ = w.tm.epoll_fd_) (h3 : w2.os = w.os) : Keeps w w2 :=
  ⟨h.congr h1 h2 h3, h2⟩

theorem SInv.key_ne_epfd {w : World} (h : SInv w) {x : Int} (hx : x ∈ keys w.tm.timers_) :
    x ≠ w.tm.epoll_fd_ := by
  intro e
  subst e
  exact h.epfd_not_interest ((h.lockstep _).1 hx)

theorem SInv.key_open {w : World} (h : SInv w) {x : Int} (hx : x ∈ keys w.tm.timers_) :
    x ∈ w.os.open_fds := h.interest_open _ ((h.lockstep _).1 hx)

theorem remove_timer_keeps {w : World} (h : SInv w) {tfd : Int} (hne : tfd ≠ w.tm.epoll_fd_) :
    Keeps w (remove_timer w tfd) := by
  have hep : w.os.epfd ≠ some tfd := by
    rw [h.epfd_eq]
    intro e
    injection e with e
    exact hne e.symm
  obtain ⟨h1, h2, h3⟩ := remove_timer_os hep
  refine ⟨⟨?_, ?_, ?_, ?_, ?_, ?_⟩, rfl⟩
  · intro x
    rw [remove_timer_tm, h3]
    dsimp only
    rw [keys_erase, h.lockstep]
  · intro p hp
    rw [remove_timer_tm] at hp
    dsimp only at hp
    exact h.tfd_key p (List.mem_filter.1 hp).1
  · intro x hx
    rw [h3] at hx
    rw [h2]
    exact ⟨h.interest_open x hx.1, hx.2⟩
  · rw [h1]; exact h.epfd_eq
  · rw [h2]; exact ⟨h.epfd_open, fun e => hne e.symm⟩
  · intro hx
    rw [h3] at hx
    exact h.epfd_not_interest hx.1

theorem emplace_of_not_mem {m : List (Int × Timer)} {key : Int} (t : Timer)
    (h : key ∉ keys m) : emplace m key t = (key, t) :: m := by
  unfold emplace
  rw [(find_eq_none_iff m key).2 h]
  rfl

theorem add_timer_keeps {w : World} (h : SInv w) (d i : Nat) (cb : TimerCallback) :
    Keeps w (add_timer w d i cb).world := by
  rw [add_timer_eq]
  split
  · exact keeps_refl h
  · cases hl : lowest_free w.os with
    | none => exact keeps_refl h
    | some tfd =>
      have hfresh := lowest_free_not_open hl
      have hnk : tfd ∉ keys w.tm.timers_ := fun hk => hfresh (h.key_open hk)
      have hni : tfd ∉ w.os.interest := fun hk => hfresh (h.interest_open _ hk)
      have hne : tfd ≠ w.tm.epoll_fd_ := fun e => hfresh (e ▸ h.epfd_open)
      dsimp only
      split
      · refine ⟨⟨h.lockstep, h.tfd_key, ?_, h.epfd_eq, ?_, h.epfd_not_interest⟩, rfl⟩
        · intro x hx
          exact List.mem_cons_of_mem _ (h.interest_open x hx)
        · exact List.mem_cons_of_mem _ h.epfd_open
      · cases he : epoll_ctl (with_timerfd w.os tfd (make_its d i)) w.tm.epoll_fd_
            .EPOLL_CTL_ADD tfd with
        | error e =>
          dsimp only
          have hep : (with_timerfd w.os tfd (make_its d i)).epfd ≠ some tfd := by
            show w.os.epfd ≠ some tfd
            rw [h.epfd_eq]
            intro e
            injection e with e
            exact hne e.symm
          rw [close_of_ne_epfd hep]
          refine ⟨⟨?_, h.tfd_key, ?_, h.epfd_eq, ?_, ?_⟩, rfl⟩
          · intro x
            rw [h.lockstep]
            simp only [with_timerfd, List.mem_filter, bne_iff_ne, ne_eq]
            constructor
            · intro hx
              exact ⟨hx, fun e => hni (e ▸ hx)⟩
            · intro hx
              exact hx.1
          · intro x hx
            simp only [with_timerfd, List.mem_filter, bne_iff_ne, ne_eq, List.mem_cons] at hx ⊢
            exact ⟨Or.inr (h.interest_open x hx.1), hx.2⟩
          · simp only [with_timerfd, List.mem_filter, bne_iff_ne, ne_eq, List.mem_cons]
            exact ⟨Or.inr h.epfd_open, fun e => hne e.symm⟩
          · simp only [with_timerfd, List.mem_filter, bne_iff_ne, ne_eq]
            intro hx
            exact h.epfd_not_interest hx.1
        | ok k2 =>
          dsimp only
          rw [epoll_ctl_add_ok he, emplace_of_not_mem _ hnk]
          refine ⟨⟨?_, ?_, ?_, h.epfd_eq, ?_, ?_⟩, rfl⟩
          · intro x
            simp only [with_timerfd, keys_cons, List.mem_cons]
            rw [h.lockstep]
          · intro p hp
            rcases List.mem_cons.1 hp with rfl | hp
            · rfl
            · exact h.tfd_key p hp
          · intro x hx
            simp only [with_timerfd, List.mem_cons] at hx ⊢
            rcases hx with rfl | hx
            · exact Or.inl rfl
            · exact Or.inr (h.interest_open x hx)
          · exact List.mem_cons_of_mem _ h.epfd_open
          · simp only [with_timerfd, List.mem_cons, not_or]
            exact ⟨fun e => hne e.symm, h.epfd_not_interest⟩

theorem add_oneshot_keeps {w : World} (h : SInv w) (d : Nat) (cb : TimerCallback) :
    Keeps w (add_oneshot w d cb).world := add_timer_keeps h d 0 cb

theorem add_interval_keeps {w : World} (h : SInv w) (d i : Nat) (cb : TimerCallback) :
    Keeps w (add_interval w d i cb).world := by
  unfold add_interval
  split
  · exact keeps_refl h
  · exact add_timer_keeps h d i cb

theorem cancel_keeps {w : World} (h : SInv w) (id : Int) : Keeps w (cancel w id).world := by
  unfold cancel
  cases hm : w.tm.mutex_ with
  | true => rw [lock_held hm]; exact keeps_refl h
  | false =>
    rw [lock_free hm]
    dsimp only
    have h1 : SInv { w with tm := { w.tm with mutex_ := true } } := h.congr rfl rfl rfl
    cases hf : find w.tm.timers_ id with
    | none => exact h.keeps_congr rfl rfl rfl
    | some t =>
      dsimp only
      have hin : id ∈ keys w.tm.timers_ := (find_isSome_iff _ _).1 (by rw [hf]; rfl)
      have hr := remove_timer_keeps h1 (h.key_ne_epfd hin)
      exact ⟨hr.inv.congr rfl rfl rfl, hr.epoll_fd_eq⟩

theorem stop_keeps {w : World} (h : SInv w) : Keeps w (stop w).world := by
  unfold stop
  cases hm : w.tm.mutex_ with
  | true => rw [lock_held hm]; exact keeps_refl h
  | false =>
    rw [lock_free hm]
    exact h.keeps_congr rfl rfl rfl

theorem call_keeps (cb : TimerCallback) : ∀ {w : World}, SInv w → Keeps w (cb.call w).world := by
  induction cb with
  | done => intro w h; exact keeps_refl h
  | add_oneshot d cb next _ ihn =>
    intro w h
    have h1 := add_oneshot_keeps h d cb
    unfold TimerCallback.call
    split
    · rename_i w1 heq
      rw [heq] at h1
      exact keeps_trans h1 (ihn h1.inv)
    · exact h1
  | add_interval d i cb next _ ihn =>
    intro w h
    have h1 := add_interval_keeps h d i cb
    unfold TimerCallback.call
    split
    · rename_i w1 heq
      rw [heq] at h1
      exact keeps_trans h1 (ihn h1.inv)
    · exact h1
  | cancel id next ihn =>
    intro w h
    have h1 := cancel_keeps h id
    unfold TimerCallback.call
    split
    · rename_i w1 heq
      rw [heq] at h1
      exact keeps_trans h1 (ihn h1.inv)
    · exact h1
  | stop next ihn =>
    intro w h
    have h1 := stop_keeps h
    unfold TimerCallback.call
    split
    · rename_i w1 heq
      rw [heq] at h1
      exact keeps_trans h1 (ihn h1.inv)
    · exact h1

theorem dispatch_keeps {w : World} (h : SInv w) (tfd : Int) :
    Keeps w (dispatch w tfd).world := by
  unfold dispatch
  cases hf : find w.tm.timers_ tfd with
  | none => exact keeps_refl h
  | some t =>
    dsimp only
    have hin : tfd ∈ keys w.tm.timers_ := (find_isSome_iff _ _).1 (by rw [hf]; rfl)
    have hne := h.key_ne_epfd hin
    have h0 : Keeps w (enter_callback w tfd) := h.keeps_congr rfl rfl rfl
    have hc := keeps_trans h0 (call_keeps t.callback h0.inv)
    split
    · rename_i w3 heq
      rw [heq] at hc
      unfold dispatch_finish
      cases hm : w3.tm.mutex_ with
      | true => rw [lock_held hm]; exact hc
      | false =>
        rw [lock_free hm]
        dsimp only
        have hr := read_is_interval_world { w3 with tm := { w3.tm with mutex_ := true } } tfd t
        have h4 : Keeps w
            (read_is_interval { w3 with tm := { w3.tm with mutex_ := true } } tfd t).2 :=
          ⟨hc.inv.congr (by rw [hr.1]) (by rw [hr.1]) (by rw [hr.2.1]),
           by rw [hr.1]; exact hc.epoll_fd_eq⟩
        split
        · exact keeps_trans h4 (remove_timer_keeps h4.inv (by rw [h4.epoll_fd_eq]; exact hne))
        · exact h4
    · exact hc

theorem for_events_keeps (fds : List Int) : ∀ {w : World}, SInv w →
    Keeps w (for_events w fds).world := by
  induction fds with
  | nil => intro w h; exact keeps_refl h
  | cons tfd rest ih =>
    intro w h
    unfold for_events
    split
    · exact keeps_refl h
    · have hd := dispatch_keeps h tfd
      split
      · rename_i w1 heq
        rw [heq] at hd
        exact keeps_trans hd (ih hd.inv)
      · exact hd

theorem run_loop_keeps (waits : List WaitResult) : ∀ {w : World}, SInv w →
    Keeps w (run_loop w waits).world := by
  induction waits with
  | nil =>
    intro w h
    unfold run_loop
    split <;> exact keeps_refl h
  | cons r rest ih =>
    intro w h
    unfold run_loop
    split
    · exact keeps_refl h
    · split
      · split
        · exact ih h
        · exact keeps_refl h
      · rename_i fds
        cases hm : w.tm.mutex_ with
        | true => rw [lock_held hm]; exact keeps_refl h
        | false =>
          rw [lock_free hm]
          dsimp only
          have h1 : Keeps w { w with tm := { w.tm with mutex_ := true } } :=
            h.keeps_congr rfl rfl rfl
          have hf := keeps_trans h1 (for_events_keeps (fds.take MAX_EVENTS) h1.inv)
          split
          · rename_i w2 heq
            rw [heq] at hf
            have h2 : Keeps w (unlock w2) := ⟨hf.inv.congr rfl rfl rfl, hf.epoll_fd_eq⟩
            exact keeps_trans h2 (ih h2.inv)
          · exact hf

theorem run_keeps {w : World} (h : SInv w) (waits : List WaitResult) :
    Keeps w (run w waits).world := by
  have h1 : Keeps w { w with tm := { w.tm with running_ := true } } := h.keeps_congr rfl rfl rfl
  exact keeps_trans h1 (run_loop_keeps waits h1.inv)

theorem new_inv {k : Kernel} {reads : List Bool} {w : World} (h : new k reads = .ok w) :
    SInv w := by
  unfold new epoll_create1 at h
  cases hl : lowest_free k with
  | none => rw [hl] at h; cases h
  | some fd =>
    rw [hl] at h
    injection h with h
    subst h
    refine ⟨?_, ?_, ?_, rfl, ?_, ?_⟩
    · intro x; simp [keys]
    · intro p hp; cases hp
    · intro x hx; cases hx
    · exact List.mem_cons_self _ _
    · intro hx; cases hx

theorem step_keeps {w : World} (h : SInv w) (s : Step) : Keeps w (s.apply w) := by
  cases s with
  | add_oneshot d cb => exact add_oneshot_keeps h d cb
  | add_interval d i cb => exact add_interval_keeps h d i cb
  | cancel id => exact cancel_keeps h id
  | stop => exact stop_keeps h
  | loop_lock =>
    show Keeps w ((lock w).getD w)
    cases hm : w.tm.mutex_ with
    | true => rw [lock_held hm]; exact keeps_refl h
    | false => rw [lock_free hm]; exact h.keeps_congr rfl rfl rfl
  | dispatch tfd => exact dispatch_keeps h tfd
  | loop_unlock => exact h.keeps_congr rfl rfl rfl
  | run waits => exact run_keeps h waits

theorem exec_inv (steps : List Step) : ∀ {w : World}, SInv w → SInv (exec w steps) := by
  induction steps with
  | nil => intro w h; exact h
  | cons s rest ih =>
    intro w h
    exact ih (step_keeps h s).inv

theorem add_timer_returned {w : World} {d i : Nat} {cb : TimerCallback}
    (h : (add_timer w d i cb).status = .returned) :
    ∃ tfd, lowest_free w.os = some tfd ∧ w.tm.mutex_ = false ∧
      (add_timer w d i cb).world.tm =
        { w.tm with timers_ := emplace w.tm.timers_ tfd ⟨tfd, cb, decide (i > 0), i⟩ } ∧
      (add_timer w d i cb).world.os =
        { with_timerfd w.os tfd (make_its d i) with interest := tfd :: w.os.interest } := by
  rw [add_timer_eq] at h ⊢
  by_cases hc : d / 1000 > MAX_SECONDS w.os ∨ i / 1000 > MAX_SECONDS w.os
  · rw [if_pos hc] at h; cases h
  · rw [if_neg hc] at h ⊢
    cases hl : lowest_free w.os with
    | none => rw [hl] at h; cases h
    | some tfd =>
      rw [hl] at h
      dsimp only at h ⊢
      by_cases hm : w.tm.mutex_ = true
      · rw [if_pos hm] at h; cases h
      · rw [if_neg hm] at h ⊢
        cases he : epoll_ctl (with_timerfd w.os tfd (make_its d i)) w.tm.epoll_fd_
            .EPOLL_CTL_ADD tfd with
        | error e => rw [he] at h; cases h
        | ok k2 => exact ⟨tfd, rfl, by simpa using hm, rfl, epoll_ctl_add_ok he⟩

theorem timer_setting_with_timerfd (k : Kernel) (fd : Int) (its : itimerspec) (l : List Int) :
    timer_setting { with_timerfd k fd its with interest := l } fd = some its := by
  simp [timer_setting, with_timerfd]

theorem add_timer_registered {w : World} {d i : Nat} {cb : TimerCallback}
    (hopen : ∀ k ∈ keys w.tm.timers_, k ∈ w.os.open_fds)
    (h : (add_timer w d i cb).status = .returned) :
    Registered w (add_timer w d i cb) d i cb := by
  obtain ⟨tfd, hl, hm, htm, hos⟩ := add_timer_returned h
  have hno : tfd ∉ w.os.open_fds := lowest_free_not_open hl
  have hnk : tfd ∉ keys w.tm.timers_ := fun hk => hno (hopen tfd hk)
  rw [emplace_of_not_mem _ hnk] at htm
  have hfree : (add_timer w d i cb).world.tm.mutex_ = false := by rw [htm]; exact hm
  have hin : tfd ∈ keys (add_timer w d i cb).world.tm.timers_ := by
    rw [htm]; exact List.mem_cons_self _ _
  refine ⟨tfd, hl, hno, hnk, by rw [hos]; rfl, ?_, by rw [hos], htm, ?_, ?_, ?_, ?_⟩
  · rw [hos]
    exact timer_setting_with_timerfd _ _ _ _
  · rw [cancel_of_present hfree hin]
  · rw [cancel_of_present hfree hin]
    show erase (add_timer w d i cb).world.tm.timers_ tfd = w.tm.timers_
    rw [htm]
    dsimp only
    rw [erase_cons, if_pos rfl, erase_of_not_mem _ _ hnk]
  · rw [cancel_of_present hfree hin]
    exact remove_timer_not_interest _ _
  · rw [cancel_of_present hfree hin]
    exact remove_timer_not_open _ _

/-- When no two calls overlap, every state reached from a freshly constructed
manager keeps the Registry and the interest list in lockstep, whatever the
reads through a dangling iterator yield. -/
theorem lockstep_without_overlap (k : Kernel) (reads : List Bool) (w : World)
    (steps : List Step) (hnew : new k reads = .ok w) : Lockstep (exec w steps) :=
  ⟨fun x hx => ((exec_inv steps (new_inv hnew)).lockstep x).1 hx,
   fun x hx => ((exec_inv steps (new_inv hnew)).lockstep x).2 hx,
   (exec_inv steps (new_inv hnew)).tfd_key⟩

/-! ## The claims -/

/-- C1: when `run` is entered with the lock free, every callback invocation it
makes happens with `mutex_` not owned, no call made by a callback
(`add_oneshot`, `add_interval`, `cancel`, `stop`) ever blocks on the lock, and
however `run` ends the loop does not own `mutex_` any more. -/
theorem callbacks_run_unlocked (w : World) (waits : List WaitResult)
    (hfree : w.tm.mutex_ = false) :
    (run w waits).status ≠ .deadlock ∧
    (run w waits).world.tm.mutex_ = false ∧
    ∃ calls, (run w waits).world.invoked = w.invoked ++ calls ∧
      ∀ c ∈ calls, c.lock_held = false := by
  have h := run_loop_ok waits { w with tm := { w.tm with running_ := true } } hfree
  exact ⟨h.1.no_deadlock, h.2, h.1.unheld⟩

/-- The loop dispatching a timer whose callback cancels it and registers
another one. -/
theorem callbacks_run_unlocked_witness :
    (one_timer cancel_then_add).tm.mutex_ = false ∧
    ((run (one_timer cancel_then_add) [.ready [4]]).status ≠ .deadlock ∧
      (run (one_timer cancel_then_add) [.ready [4]]).world.tm.mutex_ = false ∧
      ∃ calls, (run (one_timer cancel_then_add) [.ready [4]]).world.invoked
          = (one_timer cancel_then_add).invoked ++ calls ∧
        ∀ c ∈ calls, c.lock_held = false) :=
  ⟨by decide, callbacks_run_unlocked (one_timer cancel_then_add) [.ready [4]] (by decide)⟩

/-- C2: on a state whose lock is free, `cancel(id)` for an `id` present in the
Registry returns normally; afterwards the Registry no longer contains `id`, the
handle `id` is neither in the epoll interest list nor open, every other Registry
entry is the same, and the running flag is unchanged. -/
theorem cancel_removes_present (w : World) (id : Int) (hfree : w.tm.mutex_ = false)
    (hin : id ∈ keys w.tm.timers_) :
    (cancel w id).status = .returned ∧
    find (cancel w id).world.tm.timers_ id = none ∧
    id ∉ keys (cancel w id).world.tm.timers_ ∧
    id ∉ (cancel w id).world.os.interest ∧
    id ∉ (cancel w id).world.os.open_fds ∧
    (∀ k, k ≠ id → find (cancel w id).world.tm.timers_ k = find w.tm.timers_ k) ∧
    (cancel w id).world.tm.running_ = w.tm.running_ := by
  rw [cancel_of_present hfree hin]
  refine ⟨rfl, ?_, ?_, ?_, ?_, ?_, rfl⟩
  · exact find_erase_self _ _
  · exact (find_eq_none_iff _ _).1 (find_erase_self _ _)
  · exact remove_timer_not_interest _ _
  · exact remove_timer_not_open _ _
  · intro k hk
    exact find_erase_ne _ hk

/-- Cancelling handle 4 of the manager with one timer. -/
theorem cancel_removes_present_witness :
    (one_timer .done).tm.mutex_ = false ∧
    4 ∈ keys (one_timer .done).tm.timers_ ∧
    ((cancel (one_timer .done) 4).status = .returned ∧
      find (cancel (one_timer .done) 4).world.tm.timers_ 4 = none ∧
      4 ∉ keys (cancel (one_timer .done) 4).world.tm.timers_ ∧
      4 ∉ (cancel (one_timer .done) 4).world.os.interest ∧
      4 ∉ (cancel (one_timer .done) 4).world.os.open_fds ∧
      (∀ k, k ≠ 4 →
        find (cancel (one_timer .done) 4).world.tm.timers_ k = find (one_timer .done).tm.timers_ k) ∧
      (cancel (one_timer .done) 4).world.tm.running_ = (one_timer .done).tm.running_) :=
  ⟨by decide, by decide, cancel_removes_present (one_timer .done) 4 (by decide) (by decide)⟩

/-- C3: on a state whose lock is free, `cancel(id)` for an `id` that is not a
key of the Registry returns normally and leaves the whole state as it was, so
cancelling twice is the same as cancelling once. -/
theorem cancel_absent_noop (w : World) (id : Int) (hfree : w.tm.mutex_ = false)
    (hnot : id ∉ keys w.tm.timers_) :
    cancel w id = ⟨w, .returned⟩ ∧ cancel (cancel w id).world id = cancel w id := by
  have h := cancel_of_absent hfree hnot
  refine ⟨h, ?_⟩
  rw [h]
  exact h

/-- Cancelling the unknown id 7 on the manager with one timer. -/
theorem cancel_absent_noop_witness :
    (one_timer .done).tm.mutex_ = false ∧
    7 ∉ keys (one_timer .done).tm.timers_ ∧
    (cancel (one_timer .done) 7 = ⟨one_timer .done, .returned⟩ ∧
      cancel (cancel (one_timer .done) 7).world 7 = cancel (one_timer .done) 7) :=
  ⟨by decide, by decide, cancel_absent_noop (one_timer .done) 7 (by decide) (by decide)⟩

/-- C4: `add_interval(delay_ms, 0, callback)` throws the zero-interval
`invalid_argument` and leaves the whole state as it was, and `add_interval`
ends with that exception only when `interval_ms = 0`. -/
theorem add_interval_zero_rejected (w : World) (delay_ms interval_ms : Nat)
    (callback : TimerCallback) :
    add_interval w delay_ms 0 callback
      = ⟨w, .threw (.invalid_argument .interval_ms_must_be_gt_0)⟩ ∧
    ((add_interval w delay_ms interval_ms callback).status
      = .threw (.invalid_argument .interval_ms_must_be_gt_0) ↔ interval_ms = 0) := by
  refine ⟨rfl, ?_, ?_⟩
  · intro h
    by_contra hne
    unfold add_interval at h
    rw [if_neg hne] at h
    exact add_timer_status_ne _ _ _ _ h
  · intro h
    subst h
    rfl

/-- C5 fails at `delay_ms = 0`: the `it_value` that `create_timerfd` hands to
`timerfd_settime` is all zero exactly when `delay_ms = 0`, and
`add_oneshot(0, callback)` on a fresh manager returns normally with handle 4 in
the Registry and in the interest list while timerfd 4 is disarmed, so the
handle never becomes ready. -/
theorem oneshot_zero_delay_disarmed :
    (∀ delay_ms interval_ms : Nat,
      (make_its delay_ms interval_ms).it_value = ⟨0, 0⟩ ↔ delay_ms = 0) ∧
    (add_oneshot fresh 0 .done).status = .returned ∧
    find (add_oneshot fresh 0 .done).world.tm.timers_ 4 = some ⟨4, .done, false, 0⟩ ∧
    (add_oneshot fresh 0 .done).world.os.interest = [4] ∧
    timer_setting (add_oneshot fresh 0 .done).world.os 4 = some ⟨⟨0, 0⟩, ⟨0, 0⟩⟩ ∧
    armed (add_oneshot fresh 0 .done).world.os 4 = false := by
  refine ⟨?_, by decide, by decide, by decide, by decide, by decide⟩
  intro d i
  simp only [make_its, timespec.mk.injEq]
  constructor
  · rintro ⟨h1, h2⟩
    omega
  · intro h
    subst h
    exact ⟨rfl, rfl⟩

/-- C6 fails: two calls of `add_oneshot` that both return hand the same thing
back to the caller (they are `void`), although the first inserted handle 4 and
the second handle 5; the id is not returned. -/
theorem add_returns_no_id :
    (add_oneshot fresh 1000 .done).status = .returned ∧
    (add_oneshot (one_timer .done) 3000 .done).status = .returned ∧
    (add_oneshot fresh 1000 .done).status = (add_oneshot (one_timer .done) 3000 .done).status ∧
    keys (add_oneshot fresh 1000 .done).world.tm.timers_ = [4] ∧
    keys (add_oneshot (one_timer .done) 3000 .done).world.tm.timers_ = [5, 4] := by
  decide

/-- C6 as the code has it: `add_oneshot` and `add_interval` hand no id back
(they are `void`).  On a state where every Registry key is an open descriptor,
a call that returns without another call running in between has created a
timerfd on the lowest free descriptor, set it to the given delay and interval,
registered it with epoll and inserted exactly one Registry entry, keyed by that
descriptor, which was not a key before; the other entries and the rest of the
manager are unchanged, and `cancel` of that descriptor removes exactly that
entry, unregisters the descriptor and closes it. -/
theorem add_registers_fresh_handle (w : World) (delay_ms interval_ms : Nat)
    (callback : TimerCallback)
    (hopen : ∀ k ∈ keys w.tm.timers_, k ∈ w.os.open_fds) :
    ((add_oneshot w delay_ms callback).status = .returned →
      Registered w (add_oneshot w delay_ms callback) delay_ms 0 callback) ∧
    ((add_interval w delay_ms interval_ms callback).status = .returned →
      Registered w (add_interval w delay_ms interval_ms callback)
        delay_ms interval_ms callback ∧
      0 < interval_ms) := by
  constructor
  · intro h
    exact add_timer_registered hopen h
  · intro h
    unfold add_interval at h ⊢
    by_cases hi : interval_ms = 0
    · rw [if_pos hi] at h; cases h
    · rw [if_neg hi] at h ⊢
      exact ⟨add_timer_registered hopen h, Nat.pos_of_ne_zero hi⟩

/-- The two calls of `main.cpp`, made on the manager with one timer. -/
theorem add_registers_fresh_handle_witness :
    (∀ k ∈ keys (one_timer .done).tm.timers_, k ∈ (one_timer .done).os.open_fds) ∧
    Registered (one_timer .done) (add_oneshot (one_timer .done) 3000 .done) 3000 0 .done ∧
    (Registered (one_timer .done) (add_interval (one_timer .done) 1000 1000 .done)
        1000 1000 .done ∧
      0 < 1000) :=
  ⟨by decide,
   (add_registers_fresh_handle (one_timer .done) 3000 1000 .done (by decide)).1 (by decide),
   (add_registers_fresh_handle (one_timer .done) 1000 1000 .done (by decide)).2 (by decide)⟩

/-- C8 fails on the running flag: when the first `epoll_wait` of `run` fails
with `EBADF`, `run` throws `system_error` and the running flag is `true`, not
`false`. -/
theorem wait_failure_leaves_running :
    (run fresh [.failed .EBADF]).status = .threw (.system_error .EBADF .epoll_wait) ∧
    (run fresh [.failed .EBADF]).world.tm.running_ = true := by
  decide

/-- C8 as the code has it: when `epoll_wait` fails with an error other than
`EINTR` while the loop is running, `run` retries nothing: it throws
`system_error` carrying that error and leaves the state exactly as it was at
the wait, so the running flag is still `true`; a failure with `EINTR` is
skipped and the loop goes on to the next wait. -/
theorem wait_failure_propagates (w : World) (e : Errno) (rest : List WaitResult)
    (hrun : w.tm.running_ = true) (hne : e ≠ .EINTR) :
    run_loop w (.failed e :: rest) = ⟨w, .threw (.system_error e .epoll_wait)⟩ ∧
    (run_loop w (.failed e :: rest)).world.tm.running_ = true ∧
    run w (.failed e :: rest)
      = ⟨{ w with tm := { w.tm with running_ := true } }, .threw (.system_error e .epoll_wait)⟩ ∧
    run_loop w (.failed .EINTR :: rest) = run_loop w rest ∧
    run w (.failed .EINTR :: rest) = run w rest := by
  have h1 : run_loop w (.failed e :: rest) = ⟨w, .threw (.system_error e .epoll_wait)⟩ := by
    simp [run_loop, hrun, hne]
  refine ⟨h1, ?_, ?_, ?_, ?_⟩
  · rw [h1]; exact hrun
  · simp [run, run_loop, hne]
  · simp [run_loop, hrun]
  · simp [run, run_loop]

/-- A failed wait, followed in the results by a ready handle that is never
reached. -/
theorem wait_failure_propagates_witness :
    (started fresh).tm.running_ = true ∧
    Errno.EBADF ≠ Errno.EINTR ∧
    (run_loop (started fresh) (.failed .EBADF :: [.ready [4]])
        = ⟨started fresh, .threw (.system_error .EBADF .epoll_wait)⟩ ∧
      (run_loop (started fresh) (.failed .EBADF :: [.ready [4]])).world.tm.running_ = true ∧
      run (started fresh) (.failed .EBADF :: [.ready [4]])
        = ⟨{ started fresh with tm := { (started fresh).tm with running_ := true } },
           .threw (.system_error .EBADF .epoll_wait)⟩ ∧
      run_loop (started fresh) (.failed .EINTR :: [.ready [4]])
        = run_loop (started fresh) [.ready [4]] ∧
      run (started fresh) (.failed .EINTR :: [.ready [4]]) = run (started fresh) [.ready [4]]) :=
  ⟨by decide, by decide,
   wait_failure_propagates (started fresh) .EBADF [.ready [4]] (by decide) (by decide)⟩

/-- C9 fails for a one-shot timer whose callback cancels it and registers a
new timer: the callback leaves handle 4 (the new timer) in the Registry, in the
interest list and open, and the dispatch step, which does not look the timer up
again, then removes, unregisters and closes that new timer; a call of `run`
that finds handle 4 ready ends with an empty Registry. -/
theorem dispatch_removes_readded_timer :
    find self_cancelling.tm.timers_ 4 = some ⟨4, cancel_then_add, false, 0⟩ ∧
    (cancel_then_add.call (enter_callback self_cancelling 4)).status = .returned ∧
    (cancel_then_add.call (enter_callback self_cancelling 4)).world.tm.timers_
      = [(4, ⟨4, .done, false, 0⟩)] ∧
    (cancel_then_add.call (enter_callback self_cancelling 4)).world.os.interest = [4] ∧
    (cancel_then_add.call (enter_callback self_cancelling 4)).world.os.open_fds
      = [4, 3, 0, 1, 2] ∧
    (dispatch self_cancelling 4).status = .returned ∧
    (dispatch self_cancelling 4).world.tm.timers_ = [] ∧
    (dispatch self_cancelling 4).world.os.interest = [] ∧
    (dispatch self_cancelling 4).world.os.open_fds = [3, 0, 1, 2] ∧
    (run (one_timer cancel_then_add) [.ready [4]]).world.tm.timers_ = [] := by
  decide

/-- C10 fails when calls overlap.  The loop dispatches one-shot timer 4, whose
callback cancels it.  Before the loop takes the lock again, a second thread
runs line 61 of `add_timer` and its new timerfd gets descriptor 4.  The loop
then reads `is_interval` through the dangling iterator (the erased record held
`false`) and `remove_timer(4)` closes that descriptor.  A third thread's
`add_oneshot` now gets descriptor 4 and registers it.  The second thread
finally runs lines 63-70: `epoll_ctl` fails with `EEXIST` and `close(4)` closes
the third thread's timerfd.  Both calls have completed, the Registry holds key
4 and the interest list is empty. -/
theorem lockstep_broken_by_overlap :
    Lockstep overlap_start ∧
    find overlap_start.tm.timers_ 4 = some ⟨4, cancels_itself, false, 0⟩ ∧
    (cancels_itself.call (enter_callback overlap_start 4)).status = .returned ∧
    keys overlap_called.tm.timers_ = [] ∧
    (create_timerfd overlap_called.os 3000 0).2.toOption = some 4 ∧
    (dispatch_finish overlap_pending 4 ⟨4, cancels_itself, false, 0⟩).status = .returned ∧
    overlap_finished.os.open_fds = [3, 0, 1, 2] ∧
    (add_oneshot overlap_finished 1000 .done).status = .returned ∧
    keys overlap_added.tm.timers_ = [4] ∧
    overlap_added.os.interest = [4] ∧
    (add_timer_locked overlap_added 4 0 .done).status
      = .threw (.system_error .EEXIST .epoll_ctl) ∧
    keys overlap_end.tm.timers_ = [4] ∧
    overlap_end.os.interest = [] ∧
    overlap_end.os.open_fds = [3, 0, 1, 2] ∧
    ¬ Lockstep overlap_end := by
  decide

end TimerManager
